import Mathlib

/-!
Verification development for the browser-resident portfolio statistics
aggregator (`script.js`, plus an alternate earlier variant of the same
script).  The JavaScript functions relevant to the claims are shallowly
embedded below: pure computations become Lean functions, the cooperative
event loop of the bounded-concurrency mapper becomes a small-step relation,
and network I/O is abstracted as an oracle (a function from requests to
responses) supplied as a parameter.

JavaScript numbers are modelled as `Int` (all the quantities involved are
produced by `Number(...)` coercions of JSON integers); `x ?? 0` patterns
become `Option Int` fields read with `.getD 0`; JS `Map` objects are
modelled as association lists with insertion-order semantics.
-/

namespace Portfolio

/-! ### escapeHtml (script.js lines 481-488)

`escapeHtml` chains five `String.replaceAll` calls whose search patterns are
single characters.  Strings are modelled as `List Char`; a single-character
`replaceAll` is a flat map over the characters. -/

/-- `String(value).replaceAll(c, rep)` for a one-character pattern `c`. -/
def replaceAllChar (c : Char) (rep : List Char) (s : List Char) : List Char :=
  s.flatMap (fun x => if x = c then rep else [x])

/-- The five entity replacement strings used by `escapeHtml`. -/
def ampEntity : List Char := ['&', 'a', 'm', 'p', ';']

def ltEntity : List Char := ['&', 'l', 't', ';']

def gtEntity : List Char := ['&', 'g', 't', ';']

def quotEntity : List Char := ['&', 'q', 'u', 'o', 't', ';']

def aposEntity : List Char := ['&', '#', '3', '9', ';']

/-- `escapeHtml` (script.js 481-488): replace `&` first, then `<`, `>`,
the double quote and the single quote, in that order. -/
def escapeHtml (s : List Char) : List Char :=
  replaceAllChar '\'' aposEntity
    (replaceAllChar '"' quotEntity
      (replaceAllChar '>' gtEntity
        (replaceAllChar '<' ltEntity
          (replaceAllChar '&' ampEntity s))))

/-- A character that must never appear raw in escaped output. -/
def isForbidden (c : Char) : Bool :=
  c = '<' || c = '>' || c = '"' || c = '\''

/-- No `<`, `>`, `"` or `'` occurs anywhere in the list. -/
def noForbidden (s : List Char) : Bool :=
  s.all (fun c => !isForbidden c)

/-- The entity names (after the ampersand) that may follow a `&`. -/
def entityTails : List (List Char) :=
  [['a', 'm', 'p', ';'], ['l', 't', ';'], ['g', 't', ';'],
   ['q', 'u', 'o', 't', ';'], ['#', '3', '9', ';']]

/-- Scans a character list and checks that every `&` begins one of the five
entities `&amp;` `&lt;` `&gt;` `&quot;` `&#39;`. -/
def ampOk : List Char → Bool
  | [] => true
  | c :: rest =>
      (if c = '&' then entityTails.any (fun t => t.isPrefixOf rest) else true)
        && ampOk rest

/-! ### renderOwnedGroups (script.js lines 372-389)

The community-card markup is a template literal with three interpolation
sites: the escaped group name, the formatted member count and the group id.
`numberFormatter.format` is abstracted as a parameter `fmt`. -/

structure Group where
  id : Int
  name : List Char
  memberCount : Int
deriving Repr, DecidableEq

def cardPre : List Char :=
  ("\n                <article class=\"group-card\">\n" ++
   "                    <p class=\"group-name\">").toList

def cardMid1 : List Char :=
  ("</p>\n                    <p class=\"group-meta\">").toList

def cardMid2 : List Char :=
  (" members</p>\n                    <a class=\"group-link\" " ++
   "href=\"https://www.roblox.com/communities/").toList

def cardSuf : List Char :=
  ("\" target=\"_blank\" rel=\"noreferrer\">Open Group</a>\n" ++
   "                </article>\n            ").toList

/-- One community card of `renderOwnedGroups` (script.js 380-386). -/
def groupCard (fmt : Int → List Char) (g : Group) : List Char :=
  cardPre ++ escapeHtml g.name ++ cardMid1 ++ fmt g.memberCount ++
    cardMid2 ++ (toString g.id).toList ++ cardSuf

/-- `renderOwnedGroups` markup (script.js 372-389): the empty-state message
for an empty list, otherwise the cards joined with the empty separator. -/
def renderOwnedGroupsHtml (fmt : Int → List Char) (groups : List Group) :
    List Char :=
  if groups.length = 0 then
    "<p class='empty-groups'>No owned groups were found.</p>".toList
  else
    (groups.map (groupCard fmt)).foldr (· ++ ·) []

lemma replaceAllChar_append (c : Char) (rep a b : List Char) :
    replaceAllChar c rep (a ++ b) =
      replaceAllChar c rep a ++ replaceAllChar c rep b := by
  simp [replaceAllChar]

lemma escapeHtml_append (a b : List Char) :
    escapeHtml (a ++ b) = escapeHtml a ++ escapeHtml b := by
  simp [escapeHtml, replaceAllChar_append]

lemma escapeHtml_cons (c : Char) (s : List Char) :
    escapeHtml (c :: s) = escapeHtml [c] ++ escapeHtml s := by
  have h : c :: s = [c] ++ s := rfl
  rw [h, escapeHtml_append]

lemma escapeHtml_singleton_other (c : Char) (h1 : ¬ c = '&') (h2 : ¬ c = '<')
    (h3 : ¬ c = '>') (h4 : ¬ c = '"') (h5 : ¬ c = '\'') :
    escapeHtml [c] = [c] := by
  simp [escapeHtml, replaceAllChar, h1, h2, h3, h4, h5]

lemma noForbidden_append (a b : List Char) :
    noForbidden (a ++ b) = (noForbidden a && noForbidden b) := by
  simp [noForbidden]

lemma ampOk_cons_other (c : Char) (rest : List Char) (h : ¬ c = '&') :
    ampOk (c :: rest) = ampOk rest := by
  simp [ampOk, h]

lemma ampOk_amp_append (rest : List Char) :
    ampOk (ampEntity ++ rest) = ampOk rest := by
  simp [ampEntity, ampOk, entityTails, List.isPrefixOf]

lemma ampOk_lt_append (rest : List Char) :
    ampOk (ltEntity ++ rest) = ampOk rest := by
  simp [ltEntity, ampOk, entityTails, List.isPrefixOf]

lemma ampOk_gt_append (rest : List Char) :
    ampOk (gtEntity ++ rest) = ampOk rest := by
  simp [gtEntity, ampOk, entityTails, List.isPrefixOf]

lemma ampOk_quot_append (rest : List Char) :
    ampOk (quotEntity ++ rest) = ampOk rest := by
  simp [quotEntity, ampOk, entityTails, List.isPrefixOf]

lemma ampOk_apos_append (rest : List Char) :
    ampOk (aposEntity ++ rest) = ampOk rest := by
  simp [aposEntity, ampOk, entityTails, List.isPrefixOf]

lemma escapeHtml_noForbidden_ampOk (s : List Char) :
    noForbidden (escapeHtml s) = true ∧ ampOk (escapeHtml s) = true := by
  induction s with
  | nil => constructor <;> rfl
  | cons c s ih =>
      rw [escapeHtml_cons]
      rcases ih with ⟨ihF, ihA⟩
      by_cases h1 : c = '&'
      · subst h1
        have he : escapeHtml ['&'] = ampEntity := by decide
        rw [he]
        refine ⟨?_, ?_⟩
        · rw [noForbidden_append, ihF]; decide
        · rw [ampOk_amp_append, ihA]
      by_cases h2 : c = '<'
      · subst h2
        have he : escapeHtml ['<'] = ltEntity := by decide
        rw [he]
        refine ⟨?_, ?_⟩
        · rw [noForbidden_append, ihF]; decide
        · rw [ampOk_lt_append, ihA]
      by_cases h3 : c = '>'
      · subst h3
        have he : escapeHtml ['>'] = gtEntity := by decide
        rw [he]
        refine ⟨?_, ?_⟩
        · rw [noForbidden_append, ihF]; decide
        · rw [ampOk_gt_append, ihA]
      by_cases h4 : c = '"'
      · subst h4
        have he : escapeHtml ['"'] = quotEntity := by decide
        rw [he]
        refine ⟨?_, ?_⟩
        · rw [noForbidden_append, ihF]; decide
        · rw [ampOk_quot_append, ihA]
      by_cases h5 : c = '\''
      · subst h5
        have he : escapeHtml ['\''] = aposEntity := by decide
        rw [he]
        refine ⟨?_, ?_⟩
        · rw [noForbidden_append, ihF]; decide
        · rw [ampOk_apos_append, ihA]
      · rw [escapeHtml_singleton_other c h1 h2 h3 h4 h5]
        refine ⟨?_, ?_⟩
        · rw [noForbidden_append, ihF]
          simp [noForbidden, isForbidden, h2, h3, h4, h5]
        · rw [show ([c] ++ escapeHtml s) = c :: escapeHtml s from rfl,
            ampOk_cons_other c _ h1, ihA]

/-- C10: for every input string the output of `escapeHtml` contains none of
the characters `<`, `>`, `"`, `'`, and every `&` in the output begins one of
the five entities `&amp;` `&lt;` `&gt;` `&quot;` `&#39;`; moreover every
group name interpolated into the community-card markup built by
`renderOwnedGroups` passes through `escapeHtml`. -/
theorem escapeHtml_output_safe :
    (∀ s : List Char,
      noForbidden (escapeHtml s) = true ∧ ampOk (escapeHtml s) = true) ∧
    (∀ (fmt : Int → List Char) (g : Group), ∃ pre post : List Char,
      groupCard fmt g = pre ++ escapeHtml g.name ++ post) := by
  refine ⟨escapeHtml_noForbidden_ampOk, fun fmt g => ?_⟩
  refine ⟨cardPre, cardMid1 ++ fmt g.memberCount ++ cardMid2 ++
    (toString g.id).toList ++ cardSuf, ?_⟩
  simp [groupCard]

/-! ### chunkArray and the batch content-stats chunking

`chunkArray` (part_000 lines 161-167) slices `values` into consecutive
pieces of `chunkSize` elements: `for (i = 0; i < length; i += chunkSize)
push(values.slice(i, i + chunkSize))`.  Each iteration consumes the next
`chunkSize` elements of the remainder, so for a positive `chunkSize` at most
`values.length` iterations happen; the fuel below makes that explicit (the
JS loop would not terminate for `chunkSize = 0`, and both call sites pass a
positive literal). -/

def chunkArrayGo (fuel : Nat) (values : List α) (chunkSize : Nat) :
    List (List α) :=
  match fuel, values with
  | 0, _ => []
  | _, [] => []
  | f + 1, v :: vs =>
      ((v :: vs).take chunkSize) :: chunkArrayGo f ((v :: vs).drop chunkSize) chunkSize

def chunkArray (values : List α) (chunkSize : Nat) : List (List α) :=
  chunkArrayGo values.length values chunkSize

/-- The inline chunking loop of `getUniversePlayingById` (script.js lines
249-252): slices of 100 universe ids per request. -/
def universePlayingChunks (universeIds : List Int) : List (List Int) :=
  chunkArray universeIds 100

/-- The chunking of `getUniverseStats` (part_000 line 149): slices of 30
universe ids per request. -/
def universeStatsChunks (universeIds : List Int) : List (List Int) :=
  chunkArray universeIds 30

/-- A list of 45 distinct universe ids. -/
def fortyFiveIds : List Int := (List.range 45).map Int.ofNat

/-- C3 counterexample: in the current script, `getUniversePlayingById`
chunks the batch endpoint at 100 ids per request, so a request for 45
universe ids is split into exactly 1 chunk, not 2. -/
theorem universePlaying_chunks_45_not_two :
    (universePlayingChunks fortyFiveIds).length = 1 ∧
      ¬ (universePlayingChunks fortyFiveIds).length = 2 := by
  decide

/-- C3 amended: a batch content-stats request for 45 universe ids is split
into exactly 1 chunk by the current script's `getUniversePlayingById`
(chunked at 100 ids per request); the alternate variant's
`getUniverseStats` (chunked at 30 ids per request) splits it into exactly
2 chunks. -/
theorem batch_chunking_45_ids :
    (universePlayingChunks fortyFiveIds).length = 1 ∧
      (universeStatsChunks fortyFiveIds).length = 2 := by
  decide

/-! ### JS `Map` model

JS `Map.set` overwrites the value of an existing key in place (keeping the
key's first-insertion position) and appends a fresh key at the end;
`Map.get` returns the unique value of a key; `Array.from(map.values())`
lists values in key insertion order.  An association list with unique keys
models this exactly. -/

def jsMapSet (m : List (Int × β)) (k : Int) (v : β) : List (Int × β) :=
  if m.any (fun p => p.1 == k) then
    m.map (fun p => if p.1 == k then (k, v) else p)
  else
    m ++ [(k, v)]

def jsMapGet (m : List (Int × β)) (k : Int) : Option β :=
  (m.find? (fun p => p.1 == k)).map (fun p => p.2)

def jsMapValues (m : List (Int × β)) : List β :=
  m.map (fun p => p.2)

/-! ### collectGames (script.js lines 192-206) -/

/-- A games-API item as consumed by `collectGames`; `none` fields model
absent JSON members (`?? 0` supplies the default). -/
structure RawGame where
  id : Option Int
  rootPlaceId : Option Int
  placeVisits : Option Int
deriving Repr, DecidableEq

/-- The deduplicated content record `{universeId, rootPlaceId, placeVisits}`. -/
structure GameRec where
  universeId : Int
  rootPlaceId : Int
  placeVisits : Int
deriving Repr, DecidableEq

/-- `collectGames` (script.js 192-206): iterate user games then group games,
skip non-positive universe ids, key a `Map` by universe id (last write
wins), return its values. -/
def collectGames (userGames groupGames : List RawGame) : List GameRec :=
  jsMapValues ((userGames ++ groupGames).foldl
    (fun m g =>
      let universeId := g.id.getD 0
      let rootPlaceId := g.rootPlaceId.getD 0
      let placeVisits := g.placeVisits.getD 0
      if universeId ≤ 0 then m
      else jsMapSet m universeId ⟨universeId, rootPlaceId, placeVisits⟩)
    [])

/-- C8: merging content items with universe ids `[1,2,2,3]` from the two
sources (account games then community games) yields exactly 3 deduplicated
entries, and the entry for id 2 is the later-seen record. -/
theorem collectGames_dedups_1223 :
    ∀ r1 v1 r2 v2 r3 v3 r4 v4 : Option Int,
      (collectGames [⟨some 1, r1, v1⟩, ⟨some 2, r2, v2⟩]
          [⟨some 2, r3, v3⟩, ⟨some 3, r4, v4⟩]).length = 3 ∧
      collectGames [⟨some 1, r1, v1⟩, ⟨some 2, r2, v2⟩]
          [⟨some 2, r3, v3⟩, ⟨some 3, r4, v4⟩] =
        [⟨1, r1.getD 0, v1.getD 0⟩, ⟨2, r3.getD 0, v3.getD 0⟩,
         ⟨3, r4.getD 0, v4.getD 0⟩] := by
  intro r1 v1 r2 v2 r3 v3 r4 v4
  constructor <;>
    simp [collectGames, jsMapSet, jsMapValues]

/-! ### getOwnedGroups (script.js lines 136-158) -/

/-- One entry of the roles payload as consumed by `getOwnedGroups`.
`roleRank = some r` models `entry?.role?.rank` being a JS number `r`;
`none` models a missing role, a missing rank, or a rank of another type
(the `typeof rank === "number"` guard fails in all those cases). -/
structure RoleEntry where
  groupId : Int
  groupName : List Char
  memberCount : Option Int
  roleRank : Option Int
deriving Repr, DecidableEq

/-- `isOwnedGroup` (script.js 155-158). -/
def isOwnedGroup (e : RoleEntry) : Bool :=
  match e.roleRank with
  | some r => decide (255 ≤ r)
  | none => false

/-- The record built for an owned entry (script.js 141-145). -/
def mkOwnedGroup (e : RoleEntry) : Group :=
  ⟨e.groupId, e.groupName, e.memberCount.getD 0⟩

/-- Stable insertion for the comparator `(a, b) => b.memberCount -
a.memberCount`: an already-placed element stays in front of `g` exactly
when the comparator does not require swapping them. -/
def insertByMembersDesc (g : Group) : List Group → List Group
  | [] => [g]
  | h :: t =>
      if g.memberCount ≤ h.memberCount then h :: insertByMembersDesc g t
      else g :: h :: t

/-- The stable sort `…,sort((a, b) => b.memberCount - a.memberCount)`
(script.js 152); JS `Array.prototype.sort` is stable. -/
def sortByMembersDesc : List Group → List Group
  | [] => []
  | g :: t => insertByMembersDesc g (sortByMembersDesc t)

/-- `getOwnedGroups` (script.js 136-153): filter the role entries by
`isOwnedGroup`, map them to records, dedupe through a `Map` keyed by group
id, and sort the values by member count descending. -/
def getOwnedGroups (roles : List RoleEntry) : List Group :=
  let owned := (roles.filter isOwnedGroup).map mkOwnedGroup
  sortByMembersDesc
    (jsMapValues (owned.foldl (fun m g => jsMapSet m g.id g) []))

lemma mem_jsMapSet {m : List (Int × β)} {k : Int} {v : β} {p : Int × β}
    (hp : p ∈ jsMapSet m k v) :
    p = (k, v) ∨ (p ∈ m ∧ ¬ p.1 = k) := by
  unfold jsMapSet at hp
  by_cases hk : m.any (fun p => p.1 == k)
  · rw [if_pos hk] at hp
    rcases List.mem_map.mp hp with ⟨q, hq, hfq⟩
    by_cases hq1 : q.1 == k
    · left; rw [if_pos hq1] at hfq; exact hfq.symm
    · right
      rw [if_neg hq1] at hfq
      subst hfq
      exact ⟨hq, by simpa using hq1⟩
  · rw [if_neg hk] at hp
    rcases List.mem_append.mp hp with h | h
    · right
      refine ⟨h, fun hpk => ?_⟩
      exact hk (List.any_eq_true.mpr ⟨p, h, by simpa using hpk⟩)
    · left; simpa using h

lemma keys_jsMapSet_exists {m : List (Int × β)} {k : Int} {v : β}
    (hk : m.any (fun p => p.1 == k) = true) :
    (jsMapSet m k v).map Prod.fst = m.map Prod.fst := by
  unfold jsMapSet
  rw [if_pos hk, List.map_map]
  refine List.map_congr_left fun p _ => ?_
  by_cases hp : p.1 == k
  · simp only [Function.comp_apply, if_pos hp]
    exact (beq_iff_eq.mp hp).symm
  · simp only [Function.comp_apply, if_neg hp]

lemma keys_jsMapSet_nodup {m : List (Int × β)} {k : Int} {v : β}
    (h : (m.map Prod.fst).Nodup) :
    ((jsMapSet m k v).map Prod.fst).Nodup := by
  by_cases hk : m.any (fun p => p.1 == k)
  · rw [keys_jsMapSet_exists hk]; exact h
  · unfold jsMapSet
    rw [if_neg hk, List.map_append]
    rw [List.nodup_append]
    refine ⟨h, by simp, fun a ha hb => ?_⟩
    simp only [List.map_cons, List.map_nil, List.mem_singleton] at hb
    subst hb
    rcases List.mem_map.mp ha with ⟨q, hq, hq1⟩
    exact hk (List.any_eq_true.mpr ⟨q, hq, by simpa using hq1⟩)

lemma find?_append_none {l1 l2 : List α} {p : α → Bool}
    (h : l1.find? p = none) : (l1 ++ l2).find? p = l2.find? p := by
  induction l1 with
  | nil => rfl
  | cons a t ih =>
      rw [List.find?_cons] at h
      rw [List.cons_append, List.find?_cons]
      cases hpa : p a with
      | true => rw [hpa] at h; exact absurd h (by simp)
      | false =>
          rw [hpa] at h
          simpa using ih h

lemma find?_append_some {l1 l2 : List α} {p : α → Bool} {a : α}
    (h : l1.find? p = some a) : (l1 ++ l2).find? p = some a := by
  induction l1 with
  | nil => exact absurd h (by simp)
  | cons b t ih =>
      rw [List.find?_cons] at h
      rw [List.cons_append, List.find?_cons]
      cases hpb : p b with
      | true => rw [hpb] at h; exact h
      | false => rw [hpb] at h; exact ih h

lemma fold_jsMapSet_keys_nodup (l : List Group) :
    ∀ m : List (Int × Group), (m.map Prod.fst).Nodup →
      ((l.foldl (fun m g => jsMapSet m g.id g) m).map Prod.fst).Nodup := by
  induction l with
  | nil => intro m hm; exact hm
  | cons g t ih =>
      intro m hm
      exact ih _ (keys_jsMapSet_nodup hm)

lemma fold_jsMapSet_val_id (l : List Group) :
    ∀ m : List (Int × Group), (∀ p ∈ m, p.2.id = p.1) →
      ∀ p ∈ l.foldl (fun m g => jsMapSet m g.id g) m, p.2.id = p.1 := by
  induction l with
  | nil => intro m hm; exact hm
  | cons g t ih =>
      intro m hm
      refine ih _ fun p hp => ?_
      rcases mem_jsMapSet hp with h | ⟨h, _⟩
      · subst h; rfl
      · exact hm p h

lemma fold_jsMapSet_lastWins (l : List Group) :
    ∀ (m : List (Int × Group)) (p : Int × Group),
      p ∈ l.foldl (fun m g => jsMapSet m g.id g) m →
      (p ∈ m ∧ ∀ g ∈ l, ¬ g.id = p.1) ∨
        (p.2 ∈ l ∧ p.2.id = p.1 ∧
          l.reverse.find? (fun g => g.id == p.1) = some p.2) := by
  induction l with
  | nil =>
      intro m p hp
      exact Or.inl ⟨hp, by simp⟩
  | cons g0 t ih =>
      intro m p hp
      rcases ih _ p hp with ⟨hpm, hnot⟩ | ⟨hmem, hid, hfind⟩
      · rcases mem_jsMapSet hpm with h | ⟨hpm0, hp1⟩
        · subst h
          refine Or.inr ⟨List.mem_cons_self _ _, rfl, ?_⟩
          rw [List.reverse_cons]
          have hnone : t.reverse.find? (fun g => g.id == g0.id) = none := by
            rw [List.find?_eq_none]
            intro x hx
            simpa using hnot x (List.mem_reverse.mp hx)
          rw [find?_append_none hnone]
          simp [List.find?_cons]
        · refine Or.inl ⟨hpm0, fun g hg => ?_⟩
          rcases List.mem_cons.mp hg with h | h
          · subst h; exact fun he => hp1 he.symm
          · exact hnot g h
      · refine Or.inr ⟨List.mem_cons_of_mem _ hmem, hid, ?_⟩
        rw [List.reverse_cons]
        exact find?_append_some hfind

lemma insertByMembersDesc_perm (g : Group) (l : List Group) :
    (insertByMembersDesc g l).Perm (g :: l) := by
  induction l with
  | nil => exact List.Perm.refl _
  | cons h t ih =>
      unfold insertByMembersDesc
      by_cases hc : g.memberCount ≤ h.memberCount
      · rw [if_pos hc]
        exact (ih.cons h).trans (List.Perm.swap g h t)
      · rw [if_neg hc]

lemma sortByMembersDesc_perm (l : List Group) :
    (sortByMembersDesc l).Perm l := by
  induction l with
  | nil => exact List.Perm.refl _
  | cons g t ih =>
      exact (insertByMembersDesc_perm g (sortByMembersDesc t)).trans (ih.cons g)

/-- C5: an entry is classified as an owned community exactly when its role
rank is a number of at least 255; the returned list has at most one record
per group id; and for each returned record, it is the last-seen owned
record with that group id. -/
theorem getOwnedGroups_classification_dedup (roles : List RoleEntry) :
    (∀ e : RoleEntry,
      isOwnedGroup e = true ↔ ∃ r, e.roleRank = some r ∧ 255 ≤ r) ∧
    List.Pairwise (fun a b : Group => ¬ a.id = b.id) (getOwnedGroups roles) ∧
    (∀ g ∈ getOwnedGroups roles,
      ((roles.filter isOwnedGroup).map mkOwnedGroup).reverse.find?
        (fun x => x.id == g.id) = some g) := by
  have hclass : ∀ e : RoleEntry,
      isOwnedGroup e = true ↔ ∃ r, e.roleRank = some r ∧ 255 ≤ r := by
    intro e
    cases he : e.roleRank with
    | none => simp [isOwnedGroup, he]
    | some r => simp [isOwnedGroup, he]
  set owned := (roles.filter isOwnedGroup).map mkOwnedGroup with howned
  set M := owned.foldl (fun m g => jsMapSet m g.id g) [] with hM
  have hgo : getOwnedGroups roles = sortByMembersDesc (jsMapValues M) := by
    rw [getOwnedGroups, hM, howned]
  have hvalpair :
      List.Pairwise (fun a b : Group => ¬ a.id = b.id) (jsMapValues M) := by
    have hk := fold_jsMapSet_keys_nodup owned [] (by simp)
    have hv := fold_jsMapSet_val_id owned [] (by simp)
    rw [← hM] at hk hv
    have hkM : List.Pairwise (fun p q : Int × Group => ¬ p.1 = q.1) M := by
      have := hk
      rw [List.Nodup, List.pairwise_map] at this
      exact this
    rw [jsMapValues, List.pairwise_map]
    exact hkM.imp_of_mem fun {a b} ha hb hab => by
      rw [← hv a ha, ← hv b hb] at hab
      exact hab
  refine ⟨hclass, ?_, ?_⟩
  · rw [hgo]
    exact ((sortByMembersDesc_perm (jsMapValues M)).pairwise_iff
      (fun {a b} (h : ¬ a.id = b.id) (he : b.id = a.id) => h he.symm)).mpr
      hvalpair
  · intro g hg
    rw [hgo] at hg
    have hgv : g ∈ jsMapValues M :=
      (sortByMembersDesc_perm (jsMapValues M)).mem_iff.mp hg
    rcases List.mem_map.mp hgv with ⟨p, hpM, hp2⟩
    rcases fold_jsMapSet_lastWins owned [] p hpM with ⟨hm, _⟩ | ⟨_, hid, hfind⟩
    · exact absurd hm (List.not_mem_nil p)
    · rw [← hp2, hid]
      exact hfind

/-- A concrete roles payload: a duplicated owned group id 1 (ranks 255 and
300) and a non-owned entry (rank 10). -/
def sampleRoles : List RoleEntry :=
  [⟨1, ['a'], some 500, some 255⟩, ⟨1, ['b'], some 900, some 300⟩,
   ⟨2, ['c'], some 50, some 10⟩]

theorem getOwnedGroups_classification_dedup_witness :
    ((sampleRoles.filter isOwnedGroup).map mkOwnedGroup).reverse.find?
      (fun x => x.id == (⟨1, ['b'], 900⟩ : Group).id) =
      some (⟨1, ['b'], 900⟩ : Group) :=
  (getOwnedGroups_classification_dedup sampleRoles).2.2
    (⟨1, ['b'], 900⟩ : Group) (by decide)

/-! ### readSnapshot / writeSnapshot (script.js lines 391-424)

`localStorage` is modelled as a map from keys to cells; a cell records how
`localStorage.getItem(key)` followed by `JSON.parse` would go.  The value
`Number(parsed.updatedAtMs ?? 0)` of a parsed object is modelled by
`UpdVal`: a missing field coerces to `0`, a numeric field to its value, and
a present non-numeric field to NaN — and every comparison against NaN is
false in JS, which `coerceUpd = none` reproduces below. -/

def CACHE_MAX_AGE_MS : Int := 10 * 60 * 1000

inductive UpdVal where
  | missing
  | nan
  | num (v : Int)
deriving Repr, DecidableEq

/-- The stored blob as far as `readSnapshot` inspects it: the
`updatedAtMs` field plus the rest of the object. -/
structure SnapshotData (π : Type) where
  updatedAtMs : UpdVal
  payload : π
deriving Repr, DecidableEq

/-- What `getItem` plus `JSON.parse` yields for one key. -/
inductive Cell (π : Type) where
  | absent        -- getItem returns null, `!raw` short-circuits
  | emptyRaw      -- the stored raw string is "", also falsy
  | unparseable   -- JSON.parse throws, caught by the try/catch
  | nonObject     -- parses, but to null or a non-object value
  | obj (s : SnapshotData π)
deriving Repr, DecidableEq

/-- `Number(parsed.updatedAtMs ?? 0)`: `some` is a real number, `none` is
NaN. -/
def coerceUpd : UpdVal → Option Int
  | .missing => some 0
  | .num v => some v
  | .nan => none

/-- `readSnapshot` (script.js 391-416).  `now` stands for `Date.now()` at
read time.  In the NaN case both `updatedAtMs <= 0` and
`Date.now() - updatedAtMs > maxAgeMs` are false, so the entry is
returned. -/
def readSnapshot (store : String → Cell π) (key : String) (maxAgeMs : Int)
    (now : Int) : Option (SnapshotData π) :=
  match store key with
  | .absent => none
  | .emptyRaw => none
  | .unparseable => none
  | .nonObject => none
  | .obj s =>
      match coerceUpd s.updatedAtMs with
      | some u => if u ≤ 0 then none else if maxAgeMs < now - u then none else some s
      | none => some s

/-- `writeSnapshot` (script.js 418-424): best-effort store; a storage error
(`accepted = false`) is swallowed and leaves the store unchanged. -/
def writeSnapshot (store : String → Cell π) (key : String)
    (s : SnapshotData π) (accepted : Bool) : String → Cell π :=
  if accepted then fun k => if k = key then .obj s else store k else store

/-- C6 counterexample: an entry whose `updatedAtMs` is present but not a
number lacks a positive `updatedAtMs`, yet `readSnapshot` returns it:
`Number` coerces the field to NaN and both the positivity check and the
age check are NaN-comparisons, hence false. -/
theorem readSnapshot_nonNumericTimestamp_returned :
    readSnapshot (fun _ => (Cell.obj ⟨UpdVal.nan, (0 : Int)⟩ : Cell Int))
        "mensch_portfolio_snapshot_v2" CACHE_MAX_AGE_MS 1000000 =
      some ⟨UpdVal.nan, 0⟩ ∧
    coerceUpd UpdVal.nan = none :=
  ⟨rfl, rfl⟩

/-- C6 amended: `readSnapshot` returns null when the stored entry is
missing, is not parseable as a JSON object, has a missing or numeric
non-positive `updatedAtMs`, or is numerically timestamped and older than
`maxAgeMs` at read time (an entry with a present non-numeric `updatedAtMs`
escapes both checks and is returned); and a `writeSnapshot` accepted by the
store followed by a read within the age ceiling returns the written
snapshot. -/
theorem snapshotCache_read_write (π : Type) :
    (∀ (store : String → Cell π) (key : String) (maxAgeMs now : Int),
      (store key = .absent ∨ store key = .emptyRaw ∨
        store key = .unparseable ∨ store key = .nonObject) →
      readSnapshot store key maxAgeMs now = none) ∧
    (∀ (store : String → Cell π) (key : String) (maxAgeMs now : Int)
        (s : SnapshotData π) (v : Int),
      store key = .obj s → coerceUpd s.updatedAtMs = some v → v ≤ 0 →
      readSnapshot store key maxAgeMs now = none) ∧
    (∀ (store : String → Cell π) (key : String) (maxAgeMs now : Int)
        (s : SnapshotData π) (v : Int),
      store key = .obj s → coerceUpd s.updatedAtMs = some v →
      maxAgeMs < now - v →
      readSnapshot store key maxAgeMs now = none) ∧
    (∀ (store : String → Cell π) (key : String) (maxAgeMs now : Int)
        (s : SnapshotData π) (v : Int),
      coerceUpd s.updatedAtMs = some v → 0 < v → now - v ≤ maxAgeMs →
      readSnapshot (writeSnapshot store key s true) key maxAgeMs now =
        some s) := by
  refine ⟨?_, ?_, ?_, ?_⟩
  · intro store key maxAgeMs now h
    rcases h with h | h | h | h <;> simp [readSnapshot, h]
  · intro store key maxAgeMs now s v hs hv hle
    simp [readSnapshot, hs, hv, if_pos hle]
  · intro store key maxAgeMs now s v hs hv hage
    rw [readSnapshot, hs]
    simp only [hv]
    by_cases hle : v ≤ 0
    · rw [if_pos hle]
    · rw [if_neg hle, if_pos hage]
  · intro store key maxAgeMs now s v hv hpos hage
    have hk : writeSnapshot store key s true key = .obj s := by
      simp [writeSnapshot]
    rw [readSnapshot, hk]
    simp only [hv]
    rw [if_neg (by omega), if_neg (by omega)]

theorem snapshotCache_read_write_witness :
    readSnapshot
        (writeSnapshot (fun _ => (Cell.absent : Cell Int))
          "mensch_portfolio_snapshot_v2" ⟨UpdVal.num 5, 42⟩ true)
        "mensch_portfolio_snapshot_v2" CACHE_MAX_AGE_MS 100 =
      some ⟨UpdVal.num 5, 42⟩ :=
  (snapshotCache_read_write Int).2.2.2
    (fun _ => Cell.absent) "mensch_portfolio_snapshot_v2"
    CACHE_MAX_AGE_MS 100 ⟨UpdVal.num 5, 42⟩ 5 rfl (by decide) (by decide)

/-! ### buildTotals (script.js lines 117-134) and the refresh-cycle wiring
of the two playing-count providers (script.js lines 61-66) -/

structure Totals where
  visits : Int
  groupMembers : Int
  playing : Int
deriving Repr, DecidableEq

/-- `sumBy(items, "memberCount")` (script.js 368-370) on the owned-group
records, whose `memberCount` is already a number. -/
def sumByMemberCount (items : List Group) : Int :=
  items.foldl (fun total g => total + g.memberCount) 0

/-- `buildTotals` (script.js 117-134): one pass over `allGames`
accumulating visits and playing; playing adds the secondary
(per-place) figure when the root place id is positive and present in the
secondary map, else the primary (per-universe) figure defaulted to 0. -/
def buildTotals (ownedGroups : List Group) (allGames : List GameRec)
    (rolimonsPlayersByPlace universePlayingById : List (Int × Int)) :
    Totals :=
  let acc := allGames.foldl
    (fun (a : Int × Int) game =>
      let placeId := game.rootPlaceId
      let rolimonsPlaying :=
        if 0 < placeId then jsMapGet rolimonsPlayersByPlace placeId else none
      let fallbackPlaying := (jsMapGet universePlayingById game.universeId).getD 0
      (a.1 + game.placeVisits, a.2 + rolimonsPlaying.getD fallbackPlaying))
    (0, 0)
  ⟨acc.1, sumByMemberCount ownedGroups, acc.2⟩

/-- The playing figure one game contributes inside `buildTotals`. -/
def playingContribution (rp up : List (Int × Int)) (g : GameRec) : Int :=
  (if 0 < g.rootPlaceId then jsMapGet rp g.rootPlaceId else none).getD
    ((jsMapGet up g.universeId).getD 0)

/-- The primary map a refresh cycle passes to `buildTotals` (script.js
62-64): the primary provider is consulted only when the secondary returned
no figures at all, otherwise an empty map is used. -/
def cycleUniversePlaying (rolimonsPlayersByPlace : List (Int × Int))
    (primary : List Int → List (Int × Int)) (universeIds : List Int) :
    List (Int × Int) :=
  if rolimonsPlayersByPlace.length = 0 then primary universeIds else []

/-- The totals a refresh cycle computes (script.js 58-66): universe ids are
taken from the merged game list, the primary provider is gated on the
secondary being empty, and `buildTotals` combines them. -/
def loadCycleTotals (rolimonsPlayersByPlace : List (Int × Int))
    (primary : List Int → List (Int × Int)) (ownedGroups : List Group)
    (allGames : List GameRec) : Totals :=
  buildTotals ownedGroups allGames rolimonsPlayersByPlace
    (cycleUniversePlaying rolimonsPlayersByPlace primary
      (allGames.map (fun g => g.universeId)))

lemma buildTotals_playing_fold (games : List GameRec)
    (rp up : List (Int × Int)) :
    ∀ a : Int × Int,
      (games.foldl
        (fun (a : Int × Int) game =>
          let placeId := game.rootPlaceId
          let rolimonsPlaying :=
            if 0 < placeId then jsMapGet rp placeId else none
          let fallbackPlaying := (jsMapGet up game.universeId).getD 0
          (a.1 + game.placeVisits, a.2 + rolimonsPlaying.getD fallbackPlaying))
        a).2 =
      a.2 + (games.map (playingContribution rp up)).sum := by
  induction games with
  | nil => intro a; simp
  | cons g t ih =>
      intro a
      rw [List.foldl_cons, ih, List.map_cons, List.sum_cons]
      simp only [playingContribution]
      ring

lemma buildTotals_playing (groups : List Group) (games : List GameRec)
    (rp up : List (Int × Int)) :
    (buildTotals groups games rp up).playing =
      (games.map (playingContribution rp up)).sum := by
  rw [buildTotals]
  simpa using buildTotals_playing_fold games rp up (0, 0)

/-- C4 counterexample: in a cycle where the secondary provider returned a
nonempty map (here one figure for place 5), a game whose root place 7 has
no secondary figure contributes 0 — not the primary provider's figure 42
for its universe 1, because the primary provider is not consulted at all in
such a cycle. -/
theorem cyclePlaying_ignores_primary_when_secondary_nonempty :
    (loadCycleTotals [(5, 10)] (fun _ => [(1, 42)]) []
        [⟨1, 7, 0⟩]).playing = 0 ∧
    jsMapGet [((5 : Int), (10 : Int))] 7 = none ∧
    jsMapGet [((1 : Int), (42 : Int))] 1 = some 42 ∧
    ¬ (0 : Int) = 42 := by
  refine ⟨?_, by decide, by decide, by decide⟩
  decide

/-- C4 amended: in every refresh cycle, the aggregated playing total is the
sum of per-item contributions; an item contributes the secondary provider's
per-place figure when its root place id is positive and has such a figure;
otherwise it contributes the primary provider's per-universe figure
(defaulted to 0) when the secondary provider returned no figures at all,
and 0 when the secondary provider returned a nonempty map (the primary
provider is not consulted in that case). -/
theorem cyclePlaying_characterization
    (rolimons : List (Int × Int)) (primary : List Int → List (Int × Int))
    (groups : List Group) (games : List GameRec) :
    (loadCycleTotals rolimons primary groups games).playing =
      (games.map (playingContribution rolimons
        (cycleUniversePlaying rolimons primary
          (games.map (fun g => g.universeId))))).sum ∧
    (∀ (g : GameRec) (v : Int), 0 < g.rootPlaceId →
      jsMapGet rolimons g.rootPlaceId = some v →
      playingContribution rolimons
        (cycleUniversePlaying rolimons primary
          (games.map (fun g => g.universeId))) g = v) ∧
    (∀ g : GameRec,
      (if 0 < g.rootPlaceId then jsMapGet rolimons g.rootPlaceId
        else none) = none →
      (rolimons = [] →
        playingContribution rolimons
          (cycleUniversePlaying rolimons primary
            (games.map (fun g => g.universeId))) g =
          (jsMapGet (primary (games.map (fun g => g.universeId)))
            g.universeId).getD 0) ∧
      (¬ rolimons = [] →
        playingContribution rolimons
          (cycleUniversePlaying rolimons primary
            (games.map (fun g => g.universeId))) g = 0)) := by
  refine ⟨?_, ?_, ?_⟩
  · rw [loadCycleTotals]
    exact buildTotals_playing _ _ _ _
  · intro g v hpos hget
    simp [playingContribution, hpos, hget]
  · intro g hnone
    constructor
    · intro hnil
      rw [playingContribution, hnone]
      rw [cycleUniversePlaying, hnil]
      simp
    · intro hne
      rw [playingContribution, hnone]
      rw [cycleUniversePlaying, if_neg (by simpa [List.length_eq_zero] using hne)]
      simp [jsMapGet]

theorem cyclePlaying_characterization_witness :
    playingContribution [(5, 10)]
      (cycleUniversePlaying [(5, 10)] (fun _ => [])
        (([⟨3, 5, 0⟩] : List GameRec).map (fun g => g.universeId)))
      ⟨3, 5, 0⟩ = 10 :=
  (cyclePlaying_characterization [(5, 10)] (fun _ => []) []
      [⟨3, 5, 0⟩]).2.1 ⟨3, 5, 0⟩ 10 (by decide) (by decide)

/-! ### fetchAbsoluteJson (script.js lines 323-360)

One network attempt is abstracted as an oracle from the attempt number to
an outcome.  A non-2xx response produces an error object carrying
`retryAfterMs = Number.isFinite(Number(header)) ? Number(header) * 1000 :
null` (script.js 338-341); a thrown fetch/abort/body-parse error carries no
such field.  The backoff (script.js 348-350) is `Number(error.retryAfterMs)
> 0 ? error.retryAfterMs : 300 * attempt * attempt`; both `null` (coerces
to 0) and a missing field (coerces to NaN) fail the `> 0` test. -/

inductive JsError where
  | http (status : Nat) (retryAfterMs : Option Int)
  | net
  | generic
deriving Repr, DecidableEq

/-- `retryAfterNum` models `Number(response.headers.get("retry-after"))`:
`some v` when that coercion is finite (an absent header coerces to 0),
`none` when it is NaN. -/
def mkRetryAfterMs (retryAfterNum : Option Int) : Option Int :=
  retryAfterNum.map (fun v => v * 1000)

inductive FetchOutcome (β : Type) where
  | success (body : β)
  | httpError (status : Nat) (retryAfterNum : Option Int)
  | netError
deriving Repr, DecidableEq

/-- The error thrown by one failed attempt, `none` for a successful one. -/
def outcomeError : FetchOutcome β → Option JsError
  | .success _ => none
  | .httpError s h => some (.http s (mkRetryAfterMs h))
  | .netError => some .net

def errRetryAfterMs : JsError → Option Int
  | .http _ r => r
  | .net => none
  | .generic => none

/-- The wait after a failed attempt (script.js 348-351). -/
def backoffMs (e : JsError) (attempt : Nat) : Int :=
  match errRetryAfterMs e with
  | some r => if 0 < r then r else 300 * attempt * attempt
  | none => 300 * attempt * attempt

/-- What one call of `fetchAbsoluteJson` did: its outcome, how many fetch
attempts it issued, and the delays it awaited, in order. -/
structure FetchRun (β : Type) where
  result : Except JsError β
  attemptsUsed : Nat
  delays : List Int

def fetchGo (resp : Nat → FetchOutcome β) (attempt remaining : Nat)
    (lastError : Option JsError) (delays : List Int) : FetchRun β :=
  match remaining with
  | 0 => ⟨.error (lastError.getD .generic), attempt - 1, delays⟩
  | r + 1 =>
      match resp attempt with
      | .success b => ⟨.ok b, attempt, delays⟩
      | .httpError s h =>
          fetchGo resp (attempt + 1) r (some (.http s (mkRetryAfterMs h)))
            (delays ++ [backoffMs (.http s (mkRetryAfterMs h)) attempt])
      | .netError =>
          fetchGo resp (attempt + 1) r (some .net)
            (delays ++ [backoffMs .net attempt])

/-- `fetchAbsoluteJson` (script.js 323-360): attempts 1, 2, 3. -/
def fetchAbsoluteJson (resp : Nat → FetchOutcome β) : FetchRun β :=
  fetchGo resp 1 3 none []

lemma fetchGo_attemptsUsed_le (resp : Nat → FetchOutcome β) :
    ∀ (remaining attempt : Nat) (lastError : Option JsError)
      (delays : List Int),
      (fetchGo resp attempt remaining lastError delays).attemptsUsed ≤
        attempt + remaining - 1 := by
  intro remaining
  induction remaining with
  | zero => intro a le d; simp [fetchGo]
  | succ r ih =>
      intro a le d
      cases h : resp a with
      | success b => simp [fetchGo, h]
      | httpError s hh =>
          simp only [fetchGo, h]
          exact le_trans (ih (a + 1) _ _) (by omega)
      | netError =>
          simp only [fetchGo, h]
          exact le_trans (ih (a + 1) _ _) (by omega)

/-- An oracle whose first response is a 429 carrying a `retry-after`
header of 0 seconds, followed by a success. -/
def respRetryZero : Nat → FetchOutcome Int := fun a =>
  if a = 1 then .httpError 429 (some 0) else .success 7

/-- C7 counterexample: when the server supplies a `retry-after` of 0, the
wait between attempt 1 and attempt 2 is the quadratic backoff 300, not the
server-supplied duration 0: `Number(0) > 0` fails, so the override is
ignored. -/
theorem fetch_retryAfterZero_uses_quadratic :
    (fetchAbsoluteJson respRetryZero).delays = [300] ∧
    outcomeError (respRetryZero 1) = some (.http 429 (some 0)) ∧
    errRetryAfterMs (JsError.http 429 (some 0)) = some 0 ∧
    ¬ (300 : Int) = 0 := by
  refine ⟨?_, by decide, by decide, by decide⟩
  decide

/-- C7 amended: `fetchAbsoluteJson` attempts the GET at most 3 times; a
successful 2xx response returns the parsed body; every non-2xx response
(and every thrown network/timeout error) counts as a failed attempt; after
each failed attempt it waits the server-supplied retry-after duration when
a positive one is given and otherwise `300 * attempt^2` (quadratic in the
attempt number); after exhausting all attempts it raises the last error. -/
theorem fetchAbsoluteJson_retry_spec (β : Type) (resp : Nat → FetchOutcome β) :
    (fetchAbsoluteJson resp).attemptsUsed ≤ 3 ∧
    (∀ b, resp 1 = .success b →
      fetchAbsoluteJson resp = ⟨.ok b, 1, []⟩) ∧
    (∀ e1 b, outcomeError (resp 1) = some e1 → resp 2 = .success b →
      fetchAbsoluteJson resp = ⟨.ok b, 2, [backoffMs e1 1]⟩) ∧
    (∀ e1 e2 b, outcomeError (resp 1) = some e1 →
      outcomeError (resp 2) = some e2 → resp 3 = .success b →
      fetchAbsoluteJson resp = ⟨.ok b, 3, [backoffMs e1 1, backoffMs e2 2]⟩) ∧
    (∀ e1 e2 e3, outcomeError (resp 1) = some e1 →
      outcomeError (resp 2) = some e2 → outcomeError (resp 3) = some e3 →
      fetchAbsoluteJson resp =
        ⟨.error e3, 3, [backoffMs e1 1, backoffMs e2 2, backoffMs e3 3]⟩) ∧
    (∀ (e : JsError) (a : Nat) (r : Int), errRetryAfterMs e = some r →
      0 < r → backoffMs e a = r) ∧
    (∀ (e : JsError) (a : Nat),
      (∀ r, errRetryAfterMs e = some r → r ≤ 0) →
      backoffMs e a = 300 * a * a) := by
  refine ⟨?_, ?_, ?_, ?_, ?_, ?_, ?_⟩
  · exact fetchGo_attemptsUsed_le resp 3 1 none []
  · intro b h1
    simp [fetchAbsoluteJson, fetchGo, h1]
  · intro e1 b h1 h2
    cases ho1 : resp 1 with
    | success b1 => rw [ho1] at h1; simp [outcomeError] at h1
    | httpError s1 r1 =>
        rw [ho1] at h1; simp [outcomeError] at h1; subst h1
        simp [fetchAbsoluteJson, fetchGo, ho1, h2]
    | netError =>
        rw [ho1] at h1; simp [outcomeError] at h1; subst h1
        simp [fetchAbsoluteJson, fetchGo, ho1, h2]
  · intro e1 e2 b h1 h2 h3
    cases ho1 : resp 1 with
    | success b1 => rw [ho1] at h1; simp [outcomeError] at h1
    | httpError s1 r1 =>
        rw [ho1] at h1; simp [outcomeError] at h1; subst h1
        cases ho2 : resp 2 with
        | success b2 => rw [ho2] at h2; simp [outcomeError] at h2
        | httpError s2 r2 =>
            rw [ho2] at h2; simp [outcomeError] at h2; subst h2
            simp [fetchAbsoluteJson, fetchGo, ho1, ho2, h3]
        | netError =>
            rw [ho2] at h2; simp [outcomeError] at h2; subst h2
            simp [fetchAbsoluteJson, fetchGo, ho1, ho2, h3]
    | netError =>
        rw [ho1] at h1; simp [outcomeError] at h1; subst h1
        cases ho2 : resp 2 with
        | success b2 => rw [ho2] at h2; simp [outcomeError] at h2
        | httpError s2 r2 =>
            rw [ho2] at h2; simp [outcomeError] at h2; subst h2
            simp [fetchAbsoluteJson, fetchGo, ho1, ho2, h3]
        | netError =>
            rw [ho2] at h2; simp [outcomeError] at h2; subst h2
            simp [fetchAbsoluteJson, fetchGo, ho1, ho2, h3]
  · intro e1 e2 e3 h1 h2 h3
    cases ho1 : resp 1 with
    | success b1 => rw [ho1] at h1; simp [outcomeError] at h1
    | httpError s1 r1 =>
        rw [ho1] at h1; simp [outcomeError] at h1; subst h1
        cases ho2 : resp 2 with
        | success b2 => rw [ho2] at h2; simp [outcomeError] at h2
        | httpError s2 r2 =>
            rw [ho2] at h2; simp [outcomeError] at h2; subst h2
            cases ho3 : resp 3 with
            | success b3 => rw [ho3] at h3; simp [outcomeError] at h3
            | httpError s3 r3 =>
                rw [ho3] at h3; simp [outcomeError] at h3; subst h3
                simp [fetchAbsoluteJson, fetchGo, ho1, ho2, ho3]
            | netError =>
                rw [ho3] at h3; simp [outcomeError] at h3; subst h3
                simp [fetchAbsoluteJson, fetchGo, ho1, ho2, ho3]
        | netError =>
            rw [ho2] at h2; simp [outcomeError] at h2; subst h2
            cases ho3 : resp 3 with
            | success b3 => rw [ho3] at h3; simp [outcomeError] at h3
            | httpError s3 r3 =>
                rw [ho3] at h3; simp [outcomeError] at h3; subst h3
                simp [fetchAbsoluteJson, fetchGo, ho1, ho2, ho3]
            | netError =>
                rw [ho3] at h3; simp [outcomeError] at h3; subst h3
                simp [fetchAbsoluteJson, fetchGo, ho1, ho2, ho3]
    | netError =>
        rw [ho1] at h1; simp [outcomeError] at h1; subst h1
        cases ho2 : resp 2 with
        | success b2 => rw [ho2] at h2; simp [outcomeError] at h2
        | httpError s2 r2 =>
            rw [ho2] at h2; simp [outcomeError] at h2; subst h2
            cases ho3 : resp 3 with
            | success b3 => rw [ho3] at h3; simp [outcomeError] at h3
            | httpError s3 r3 =>
                rw [ho3] at h3; simp [outcomeError] at h3; subst h3
                simp [fetchAbsoluteJson, fetchGo, ho1, ho2, ho3]
            | netError =>
                rw [ho3] at h3; simp [outcomeError] at h3; subst h3
                simp [fetchAbsoluteJson, fetchGo, ho1, ho2, ho3]
        | netError =>
            rw [ho2] at h2; simp [outcomeError] at h2; subst h2
            cases ho3 : resp 3 with
            | success b3 => rw [ho3] at h3; simp [outcomeError] at h3
            | httpError s3 r3 =>
                rw [ho3] at h3; simp [outcomeError] at h3; subst h3
                simp [fetchAbsoluteJson, fetchGo, ho1, ho2, ho3]
            | netError =>
                rw [ho3] at h3; simp [outcomeError] at h3; subst h3
                simp [fetchAbsoluteJson, fetchGo, ho1, ho2, ho3]
  · intro e a r h hpos
    cases e with
    | http s rr =>
        simp [errRetryAfterMs] at h; subst h
        simp [backoffMs, errRetryAfterMs, if_pos hpos]
    | net => simp [errRetryAfterMs] at h
    | generic => simp [errRetryAfterMs] at h
  · intro e a h
    cases e with
    | http s rr =>
        cases rr with
        | none => simp [backoffMs, errRetryAfterMs]
        | some r =>
            have hr := h r rfl
            simp only [backoffMs, errRetryAfterMs]
            rw [if_neg (by omega)]
    | net => simp [backoffMs, errRetryAfterMs]
    | generic => simp [backoffMs, errRetryAfterMs]

theorem fetchAbsoluteJson_retry_spec_witness :
    fetchAbsoluteJson (fun _ => FetchOutcome.success (7 : Int)) =
      ⟨.ok 7, 1, []⟩ :=
  (fetchAbsoluteJson_retry_spec Int (fun _ => FetchOutcome.success 7)).2.1
    7 rfl

/-! ### mapWithConcurrency (script.js lines 280-303)

The worker pool runs on the single-threaded JS event loop.  In one loop
iteration a worker reads `nextIndex`, increments it and checks it against
the bounds — all synchronously in one event-loop slice, so claiming an
index is a single atomic step; it then invokes the handler and suspends on
its `await`.  When the handler settles, the resumption stores the result
and the worker returns to the top of its loop.  The scheduler below picks
freely which enabled step runs next, which covers every handler completion
order (it is even slightly more liberal than the real event loop, which
runs a completion and the following claim in one slice).  The handler is
modelled as a pure function of the item and its index. -/

inductive WStatus where
  | ready          -- at the top of the while (true) loop
  | pending (i : Nat)  -- suspended on await handler(items[i], i)
  | done           -- returned out of the loop
deriving Repr, DecidableEq

structure PoolState (β : Type) where
  nextIndex : Nat
  results : List (Option β)
  workers : List WStatus
deriving Repr, DecidableEq

/-- The state after `new Array(items.length)`, `nextIndex = 0` and pushing
`Math.min(concurrency, items.length)` worker tasks (script.js 281-299). -/
def initPool (items : List α) (limit : Nat) : PoolState β :=
  ⟨0, List.replicate items.length none,
    List.replicate (min limit items.length) .ready⟩

inductive PoolStep (items : List α) (f : α → Nat → β) :
    PoolState β → PoolState β → Prop where
  | claim (s : PoolState β) (w : Nat)
      (hw : s.workers.get? w = some .ready)
      (h : s.nextIndex < items.length) :
      PoolStep items f s
        ⟨s.nextIndex + 1, s.results,
          s.workers.set w (.pending s.nextIndex)⟩
  | exitWorker (s : PoolState β) (w : Nat)
      (hw : s.workers.get? w = some .ready)
      (h : items.length ≤ s.nextIndex) :
      PoolStep items f s
        ⟨s.nextIndex + 1, s.results, s.workers.set w .done⟩
  | complete (s : PoolState β) (w i : Nat)
      (hw : s.workers.get? w = some (.pending i)) (hi : i < items.length) :
      PoolStep items f s
        ⟨s.nextIndex,
          s.results.set i (some (f (items.get ⟨i, hi⟩) i)),
          s.workers.set w .ready⟩

def PoolReachable (items : List α) (f : α → Nat → β) (limit : Nat)
    (s : PoolState β) : Prop :=
  Relation.ReflTransGen (PoolStep items f) (initPool items limit) s

/-- `Promise.all(workers)` has resolved: every worker returned. -/
def PoolFinal (s : PoolState β) : Prop :=
  ∀ w ∈ s.workers, w = WStatus.done

def isPending : WStatus → Bool
  | .pending _ => true
  | _ => false

/-- Invariant of the worker pool. -/
structure PoolInv (items : List α) (f : α → Nat → β) (limit : Nat)
    (s : PoolState β) : Prop where
  res_len : s.results.length = items.length
  wk_len : s.workers.length = min limit items.length
  res_val : ∀ i v, s.results.get? i = some (some v) →
      ∃ hi : i < items.length, v = f (items.get ⟨i, hi⟩) i
  claimed : ∀ i, i < items.length → i < s.nextIndex →
      (∃ v, s.results.get? i = some (some v)) ∨
        ∃ w, s.workers.get? w = some (.pending i)
  done_next : ∀ w, s.workers.get? w = some .done →
      items.length ≤ s.nextIndex

lemma poolInv_init (items : List α) (f : α → Nat → β) (limit : Nat) :
    PoolInv items f limit (initPool items limit) := by
  refine ⟨by simp [initPool], by simp [initPool], ?_, ?_, ?_⟩
  · intro i v h
    have hm := List.get?_mem h
    have := List.eq_of_mem_replicate hm
    exact absurd this (by simp)
  · intro i hi hlt
    exact absurd hlt (by simp [initPool])
  · intro w hw
    have hm := List.get?_mem hw
    have := List.eq_of_mem_replicate hm
    exact absurd this (by simp)

lemma poolInv_step {items : List α} {f : α → Nat → β} {limit : Nat}
    {s t : PoolState β} (hinv : PoolInv items f limit s)
    (hstep : PoolStep items f s t) : PoolInv items f limit t := by
  cases hstep with
  | claim w hw h =>
      refine ⟨hinv.res_len, by simpa using hinv.wk_len, hinv.res_val,
        ?_, ?_⟩
      · intro i hi hlt
        have hlt1 : i < s.nextIndex + 1 := hlt
        by_cases hie : i = s.nextIndex
        · subst hie
          right
          have hwlt : w < s.workers.length := by
            rcases List.get?_eq_some.mp hw with ⟨hlt2, _⟩
            exact hlt2
          exact ⟨w, List.get?_set_eq_of_lt _ hwlt⟩
        · have hlt2 : i < s.nextIndex := by omega
          rcases hinv.claimed i hi hlt2 with hres | ⟨w2, hw2⟩
          · exact Or.inl hres
          · right
            have hne : ¬ w = w2 := by
              intro he
              subst he
              rw [hw] at hw2
              exact absurd (Option.some.inj hw2) (by simp)
            exact ⟨w2, by
              show (s.workers.set w (.pending s.nextIndex)).get? w2 =
                some (.pending i)
              rw [List.get?_set_ne _ _ hne]
              exact hw2⟩
      · intro w2 hw2
        have hw2a : (s.workers.set w (.pending s.nextIndex)).get? w2 =
            some .done := hw2
        show items.length ≤ s.nextIndex + 1
        by_cases hne : w = w2
        · subst hne
          have hwlt : w < s.workers.length := by
            rcases List.get?_eq_some.mp hw with ⟨hlt2, _⟩
            exact hlt2
          rw [List.get?_set_eq_of_lt _ hwlt] at hw2a
          exact absurd (Option.some.inj hw2a) (by simp)
        · rw [List.get?_set_ne _ _ hne] at hw2a
          exact le_trans (hinv.done_next w2 hw2a) (by omega)
  | exitWorker w hw h =>
      refine ⟨hinv.res_len, by simpa using hinv.wk_len, hinv.res_val,
        ?_, ?_⟩
      · intro i hi hlt
        have hlt2 : i < s.nextIndex := by omega
        rcases hinv.claimed i hi hlt2 with hres | ⟨w2, hw2⟩
        · exact Or.inl hres
        · right
          have hne : ¬ w = w2 := by
            intro he
            subst he
            rw [hw] at hw2
            exact absurd (Option.some.inj hw2) (by simp)
          exact ⟨w2, by
            show (s.workers.set w .done).get? w2 = some (.pending i)
            rw [List.get?_set_ne _ _ hne]
            exact hw2⟩
      · intro w2 hw2
        show items.length ≤ s.nextIndex + 1
        omega
  | complete w i hw hi =>
      have hires : i < s.results.length := by
        rw [hinv.res_len]; exact hi
      refine ⟨by simpa using hinv.res_len, by simpa using hinv.wk_len,
        ?_, ?_, ?_⟩
      · intro j v hj
        have hja : (s.results.set i (some (f (items.get ⟨i, hi⟩) i))).get? j =
            some (some v) := hj
        by_cases hje : j = i
        · subst hje
          rw [List.get?_set_eq_of_lt _ hires] at hja
          have hv := Option.some.inj (Option.some.inj hja)
          exact ⟨hi, hv.symm⟩
        · rw [List.get?_set_ne _ _ (fun he => hje he.symm)] at hja
          exact hinv.res_val j v hja
      · intro j hj hlt
        have hlt2 : j < s.nextIndex := hlt
        rcases hinv.claimed j hj hlt2 with ⟨v, hv⟩ | ⟨w2, hw2⟩
        · left
          by_cases hje : j = i
          · subst hje
            exact ⟨_, List.get?_set_eq_of_lt _ hires⟩
          · exact ⟨v, by
              show (s.results.set i (some (f (items.get ⟨i, hi⟩) i))).get? j =
                some (some v)
              rw [List.get?_set_ne _ _ (fun he => hje he.symm)]
              exact hv⟩
        · by_cases hwe : w = w2
          · subst hwe
            rw [hw] at hw2
            have hji : i = j := by
              have hp := Option.some.inj hw2
              cases hp
              rfl
            subst hji
            left
            exact ⟨_, List.get?_set_eq_of_lt _ hires⟩
          · right
            exact ⟨w2, by
              show (s.workers.set w .ready).get? w2 = some (.pending j)
              rw [List.get?_set_ne _ _ hwe]
              exact hw2⟩
      · intro w2 hw2
        have hw2a : (s.workers.set w .ready).get? w2 = some .done := hw2
        show items.length ≤ s.nextIndex
        by_cases hwe : w = w2
        · subst hwe
          have hwlt : w < s.workers.length := by
            rcases List.get?_eq_some.mp hw with ⟨hlt2, _⟩
            exact hlt2
          rw [List.get?_set_eq_of_lt _ hwlt] at hw2a
          exact absurd (Option.some.inj hw2a) (by simp)
        · rw [List.get?_set_ne _ _ hwe] at hw2a
          exact hinv.done_next w2 hw2a

lemma poolInv_reachable {items : List α} {f : α → Nat → β} {limit : Nat}
    {s : PoolState β} (hr : PoolReachable items f limit s) :
    PoolInv items f limit s := by
  induction hr with
  | refl => exact poolInv_init items f limit
  | tail hab hbc ih => exact poolInv_step ih hbc

/-- C2 counterexample: with concurrency limit 0 and a nonempty item list
the pool spawns `min(0, 1) = 0` workers, so the initial state is already
final — `Promise.all([])` resolves immediately — and the returned array
contains no handler result at index 0 (`undefined`, modelled `none`). -/
theorem mapWithConcurrency_limitZero_unfilled :
    PoolReachable [(7 : Int)] (fun a _ => a) 0
        (initPool [(7 : Int)] 0 : PoolState Int) ∧
    PoolFinal (initPool [(7 : Int)] 0 : PoolState Int) ∧
    (initPool [(7 : Int)] 0 : PoolState Int).results.get? 0 = some none := by
  refine ⟨Relation.ReflTransGen.refl, ?_, rfl⟩
  intro w hw
  simp [initPool] at hw

/-- C2 amended: for every item list, every concurrency limit of at least 1
and every handler, in every final state every scheduler can reach, the
result at index `i` is the handler's result for `items[i]`, regardless of
the order in which the handler calls complete. -/
theorem mapWithConcurrency_inOrder (items : List α) (f : α → Nat → β)
    (limit : Nat) (hlim : 1 ≤ limit) (s : PoolState β)
    (hr : PoolReachable items f limit s) (hfin : PoolFinal s) :
    ∀ (i : Nat) (hi : i < items.length),
      s.results.get? i = some (some (f (items.get ⟨i, hi⟩) i)) := by
  intro i hi
  have hinv := poolInv_reachable hr
  have hpos : 0 < s.workers.length := by
    rw [hinv.wk_len]
    omega
  have hw0 : s.workers.get? 0 = some (s.workers.get ⟨0, hpos⟩) :=
    List.get?_eq_get hpos
  have hw0done : s.workers.get ⟨0, hpos⟩ = WStatus.done :=
    hfin _ (List.get?_mem hw0)
  have hnext : items.length ≤ s.nextIndex :=
    hinv.done_next 0 (by rw [hw0, hw0done])
  rcases hinv.claimed i hi (lt_of_lt_of_le hi hnext) with ⟨v, hv⟩ | ⟨w, hw⟩
  · rcases hinv.res_val i v hv with ⟨hi2, hveq⟩
    rw [hv, hveq]
  · have := hfin _ (List.get?_mem hw)
    exact absurd this (by simp)

theorem mapWithConcurrency_inOrder_witness :
    (⟨2, [some 7], [.done]⟩ : PoolState Int).results.get? 0 =
      some (some ((fun (a : Int) (_ : Nat) => a) 7 0)) := by
  have st1 : PoolStep [(7 : Int)] (fun a _ => a)
      (initPool [(7 : Int)] 1) (⟨1, [none], [.pending 0]⟩ : PoolState Int) :=
    PoolStep.claim (initPool [(7 : Int)] 1) 0 rfl (by decide)
  have st2 : PoolStep [(7 : Int)] (fun a _ => a)
      (⟨1, [none], [.pending 0]⟩ : PoolState Int)
      (⟨1, [some 7], [.ready]⟩ : PoolState Int) :=
    PoolStep.complete (⟨1, [none], [.pending 0]⟩ : PoolState Int) 0 0 rfl
      (by decide)
  have st3 : PoolStep [(7 : Int)] (fun a _ => a)
      (⟨1, [some 7], [.ready]⟩ : PoolState Int)
      (⟨2, [some 7], [.done]⟩ : PoolState Int) :=
    PoolStep.exitWorker (⟨1, [some 7], [.ready]⟩ : PoolState Int) 0 rfl
      (by decide)
  have hr : PoolReachable [(7 : Int)] (fun a _ => a) 1
      (⟨2, [some 7], [.done]⟩ : PoolState Int) :=
    Relation.ReflTransGen.tail
      (Relation.ReflTransGen.tail
        (Relation.ReflTransGen.tail Relation.ReflTransGen.refl st1) st2) st3
  exact mapWithConcurrency_inOrder [(7 : Int)] (fun a _ => a) 1 (by decide)
    _ hr (by intro w hw; simpa using hw) 0 (by decide)

/-- C9: in every state any scheduler can reach, at most `limit` handler
invocations are pending simultaneously. -/
theorem mapWithConcurrency_bounded (items : List α) (f : α → Nat → β)
    (limit : Nat) (s : PoolState β) (hr : PoolReachable items f limit s) :
    (s.workers.filter isPending).length ≤ limit := by
  have hinv := poolInv_reachable hr
  calc (s.workers.filter isPending).length
      ≤ s.workers.length := List.length_filter_le _ _
    _ = min limit items.length := hinv.wk_len
    _ ≤ limit := Nat.min_le_left _ _

theorem mapWithConcurrency_bounded_witness :
    (((initPool [(7 : Int)] 1 : PoolState Int)).workers.filter
      isPending).length ≤ 1 :=
  mapWithConcurrency_bounded [(7 : Int)] (fun a _ => a) 1
    (initPool [(7 : Int)] 1) Relation.ReflTransGen.refl

/-! ### getPagedGames (script.js lines 177-190)

The games API is abstracted as an oracle from the request cursor (`none`
for the base path, `some s` for `...&cursor=s`) to the page payload.  The
collector returns, besides the collected items, the trace of request
cursors it issued (instrumentation for the statement; the JS function
returns only the items).  The do/while runs again exactly when the
returned `nextPageCursor` is truthy, i.e. a non-null non-empty string. -/

structure PageResponse (α : Type) where
  data : Option (List α)          -- none models payload.data not being an array
  nextPageCursor : Option String  -- none models a missing or null field

/-- JS truthiness of the `cursor` loop variable. -/
def cursorTruthy : Option String → Bool
  | none => false
  | some s => !(s == "")

/-- The chain of cursors starting from request cursor `c`: each next
request carries the `nextPageCursor` of the previous response. -/
def chainFrom (server : Option String → PageResponse α)
    (c : Option String) : Nat → Option String
  | 0 => c
  | n + 1 => (server (chainFrom server c n)).nextPageCursor

/-- The cursor of the k-th request of a run of `getPagedGames`: the first
request carries no cursor. -/
def reqCursor (server : Option String → PageResponse α) : Nat → Option String :=
  chainFrom server none

/-- The collector loop (script.js 181-187).  The fuel only bounds the
number of iterations the embedding unfolds; the theorem below shows any
fuel of at least the run length is enough. -/
def getPagedGamesGo (server : Option String → PageResponse α) :
    Nat → Option String → Option (List α × List (Option String))
  | 0, _ => none
  | fuel + 1, cursor =>
      let payload := server cursor
      let pageData := payload.data.getD []
      if cursorTruthy payload.nextPageCursor then
        (getPagedGamesGo server fuel payload.nextPageCursor).map
          (fun r => (pageData ++ r.1, cursor :: r.2))
      else
        some (pageData, [cursor])

/-- `getPagedGames` (script.js 177-190): start with no cursor. -/
def getPagedGames (server : Option String → PageResponse α) (fuel : Nat) :
    Option (List α × List (Option String)) :=
  getPagedGamesGo server fuel none

lemma chainFrom_shift (server : Option String → PageResponse α)
    (c : Option String) :
    ∀ k, chainFrom server ((server c).nextPageCursor) k =
      chainFrom server c (k + 1) := by
  intro k
  induction k with
  | zero => rfl
  | succ k ih => simp [chainFrom, ih]

lemma getPagedGamesGo_spec (server : Option String → PageResponse α) :
    ∀ (m : Nat) (c : Option String) (fuel : Nat),
      (∀ k, 1 ≤ k → k < m + 1 → cursorTruthy (chainFrom server c k) = true) →
      cursorTruthy (chainFrom server c (m + 1)) = false →
      m + 1 ≤ fuel →
      getPagedGamesGo server fuel c =
        some (((List.range (m + 1)).map
            (fun k => (server (chainFrom server c k)).data.getD [])).join,
          (List.range (m + 1)).map (chainFrom server c)) := by
  intro m
  induction m with
  | zero =>
      intro c fuel hall hstop hfuel
      have hstop1 : cursorTruthy ((server c).nextPageCursor) = false := by
        simpa [chainFrom] using hstop
      cases fuel with
      | zero => omega
      | succ f =>
          simp [getPagedGamesGo, hstop1, chainFrom, List.range_succ]
  | succ m ih =>
      intro c fuel hall hstop hfuel
      cases fuel with
      | zero => omega
      | succ f =>
          have htr : cursorTruthy ((server c).nextPageCursor) = true := by
            simpa [chainFrom] using hall 1 (by omega) (by omega)
          have hallm : ∀ k, 1 ≤ k → k < m + 1 →
              cursorTruthy
                (chainFrom server ((server c).nextPageCursor) k) = true := by
            intro k h1 h2
            rw [chainFrom_shift]
            exact hall (k + 1) (by omega) (by omega)
          have hstopm : cursorTruthy
              (chainFrom server ((server c).nextPageCursor) (m + 1)) =
                false := by
            rw [chainFrom_shift]
            exact hstop
          have hrec := ih ((server c).nextPageCursor) f hallm hstopm
            (by omega)
          have hdata : (List.range (m + 1)).map
              (fun k => (server (chainFrom server
                ((server c).nextPageCursor) k)).data.getD []) =
              (List.range (m + 1)).map
                (fun k => (server (chainFrom server c (k + 1))).data.getD []) :=
            List.map_congr_left fun k _ => by rw [chainFrom_shift]
          have hcur : (List.range (m + 1)).map
              (chainFrom server ((server c).nextPageCursor)) =
              (List.range (m + 1)).map (fun k => chainFrom server c (k + 1)) :=
            List.map_congr_left fun k _ => chainFrom_shift server c k
          rw [List.range_succ_eq_map]
          simp only [List.map_cons, List.join_cons, List.map_map,
            Function.comp_def, Nat.succ_eq_add_one]
          rw [show getPagedGamesGo server (f + 1) c =
              (getPagedGamesGo server f ((server c).nextPageCursor)).map
                (fun r => ((server c).data.getD [] ++ r.1, c :: r.2)) by
            simp [getPagedGamesGo, htr]]
          rw [hrec, hdata, hcur]
          simp [chainFrom]

/-- C1: when the cursor chain first becomes non-truthy at request index
`n` (the server eventually returns an absent cursor), the collector
terminates and returns the concatenation of every fetched page's item
array, its k-th request carries the cursor `reqCursor server k`, and each
request after the first carries exactly the `nextPageCursor` of the
immediately preceding response. -/
theorem getPagedGames_collects_all_pages
    (server : Option String → PageResponse α) (n fuel : Nat) (hn : 1 ≤ n)
    (hall : ∀ k, 1 ≤ k → k < n → cursorTruthy (reqCursor server k) = true)
    (hstop : cursorTruthy (reqCursor server n) = false) (hfuel : n ≤ fuel) :
    getPagedGames server fuel =
      some (((List.range n).map
          (fun k => (server (reqCursor server k)).data.getD [])).join,
        (List.range n).map (reqCursor server)) ∧
    ∀ k, reqCursor server (k + 1) =
      (server (reqCursor server k)).nextPageCursor := by
  refine ⟨?_, fun k => rfl⟩
  obtain ⟨m, rfl⟩ : ∃ m, n = m + 1 := ⟨n - 1, by omega⟩
  exact getPagedGamesGo_spec server m none fuel hall hstop hfuel

/-- A two-page server: the base request returns items `[1, 2]` and a
cursor, the cursor request returns `[3]` and no cursor. -/
def twoPageServer : Option String → PageResponse Int := fun c =>
  match c with
  | none => ⟨some [1, 2], some "cursorA"⟩
  | some s => if s = "cursorA" then ⟨some [3], none⟩ else ⟨some [], none⟩

theorem getPagedGames_collects_all_pages_witness :
    getPagedGames twoPageServer 2 =
      some ([1, 2, 3], [none, some "cursorA"]) := by
  have h := getPagedGames_collects_all_pages twoPageServer 2 2 (by omega)
    (by
      intro k h1 h2
      have hk : k = 1 := by omega
      subst hk
      decide)
    (by decide) (by omega)
  rw [h.1]
  decide

end Portfolio

